import Mathlib

/-!
Verification of the usbinfo package's device-enumeration core.

This file gives a shallow embedding of the Python sources:
  - usbinfo/darwin.py  (registry-tree walker, XML sanitizer, cross-tree search)
  - usbinfo/linux.py   (device-manager enumerator)
  - usbinfo/__init__.py (record normalizer and typed query API)
and proves or refutes the specification claims about them.

Registry nodes are modelled as finite property maps (association lists with
the first binding winning, as in a Python dict) together with the ordered
child list stored under the IORegistryEntryChildren key in the real plist.
Property values in a plist are integers or strings; string-valued
device-path properties are assumed, matching the plist string fields the
code reads. Python exceptions are modelled with an Except monad.
-/

/-- Property value of a registry node: a plist integer or string. -/
inductive PValue where
  | int (n : Int)
  | str (s : String)
deriving DecidableEq, Repr

/-- Registry node: a property map plus the ordered list of child nodes. -/
inductive IONode where
  | mk (props : List (String × PValue)) (children : List IONode)

/-- Property map of a node. -/
def IONode.props : IONode → List (String × PValue)
  | .mk p _ => p

/-- Ordered children of a node (the IORegistryEntryChildren list). -/
def IONode.children : IONode → List IONode
  | .mk _ c => c

/-- Dictionary lookup node.get(k): first binding of the key, if any. -/
def IONode.get (n : IONode) (k : String) : Option PValue :=
  (n.props.find? (fun kv => kv.1 = k)).map (fun kv => kv.2)

/-- Lookup restricted to string-valued properties. -/
def IONode.getS (n : IONode) (k : String) : Option String :=
  match n.get k with
  | some (.str s) => some s
  | _ => none

/-- Membership test k in node, as in the Python expression. -/
def IONode.hasKey (n : IONode) (k : String) : Bool :=
  (n.get k).isSome

/-- Python exceptions that the modelled code can raise. -/
inductive PyErr where
  | keyError
  | typeError
  | attrError
  | valueError
deriving DecidableEq, Repr

/-- Subscript access node[k]: raises KeyError when the key is missing. -/
def IONode.getKey (n : IONode) (k : String) : Except PyErr PValue :=
  match n.get k with
  | some v => .ok v
  | none => .error .keyError

/-- Python str() of a property value. -/
def pyStr : PValue → String
  | .int n => toString n
  | .str s => s

/-- Python s.encode(ascii, ignore): drop all non-ASCII characters. -/
def asciiIgnore (s : String) : String :=
  ⟨s.data.filter (fun c => c.toNat < 128)⟩

/-- Lowercase hexadecimal digit character for a value below 16. -/
def hexDigitLower (n : Nat) : Char :=
  if n < 10 then Char.ofNat (48 + n) else Char.ofNat (87 + n)

/-- Accumulator loop producing the hexadecimal digits of a positive number.
The first argument is fuel bounding the number of division steps; any fuel
of at least the number's value is enough, since each step divides by 16. -/
def natToHexAux : Nat → Nat → List Char → List Char
  | 0, _, acc => acc
  | _ + 1, 0, acc => acc
  | fuel + 1, n + 1, acc =>
    natToHexAux fuel ((n + 1) / 16) (hexDigitLower ((n + 1) % 16) :: acc)

/-- Lowercase hexadecimal digits of a natural number. -/
def natToHex (n : Nat) : List Char :=
  if n = 0 then ['0'] else natToHexAux n n []

/-- Zero-padding on the left to a minimum number of digits. -/
def padZeros (w : Nat) (l : List Char) : List Char :=
  List.replicate (w - l.length) '0' ++ l

/-- Python string formatting with the %0.4x conversion: at least four
lowercase hexadecimal digits, with a minus sign ahead of the digits of the
absolute value for negative input. -/
def pyHexPrec4 (n : Int) : String :=
  if n < 0 then ⟨'-' :: padZeros 4 (natToHex (-n).toNat)⟩
  else ⟨padZeros 4 (natToHex n.toNat)⟩

/-- Formatting of an idVendor or idProduct value with %0.4x; a string value
raises TypeError as in Python. -/
def fmtId : PValue → Except PyErr String
  | .int n => .ok (pyHexPrec4 n)
  | .str _ => .error .typeError

/-- Lookup node.get(k, u'').encode(ascii, ignore): empty string when the key
is missing, TypeError-like failure (AttributeError) when the value is not a
string. -/
def getStrEnc (n : IONode) (k : String) : Except PyErr String :=
  match n.get k with
  | none => .ok ""
  | some (.str s) => .ok (asciiIgnore s)
  | some (.int _) => .error .attrError

mutual

/-- Embedding of darwin._usb_device: recursively collect every node carrying
a sessionID property, the node itself first, then its children in order. -/
def usbDevice : IONode → List IONode
  | .mk props children =>
    (if (IONode.mk props children).hasKey "sessionID"
      then [IONode.mk props children] else [])
      ++ usbDeviceForest children

/-- Collection of usbDevice results across a forest, in order. -/
def usbDeviceForest : List IONode → List IONode
  | [] => []
  | n :: rest => usbDevice n ++ usbDeviceForest rest

end

/-- Handler dispatch of darwin._extra_if_info on one child: the serial
handler reads IODialinDevice, the disk handler returns /dev/ plus the first
BSD Name found among the grandchildren. At most one class marker matches. -/
def handlerExtra (c : IONode) : Option String :=
  if c.getS "IOObjectClass" = some "IOSerialBSDClient" then
    c.getS "IODialinDevice"
  else if c.getS "IOObjectClass" = some "IOFDiskPartitionScheme" then
    (c.children.findSome? (fun ch => ch.getS "BSD Name")).map
      (fun nm => "/dev/" ++ nm)
  else none

mutual

/-- Embedding of darwin._extra_if_info, which accumulates a devname over the
subtree with dict.update semantics: the only key ever written is devname, so
the accumulated dictionary is an Option String in which a later update with
the key overwrites an earlier one. -/
def extraIfInfo : IONode → Option String
  | .mk _ children => extraChildren children

/-- Loop of _extra_if_info over a child list: for each child, the handler
result is updated over the accumulator, then the child's own subtree result;
later children win, and within one child the subtree wins over the handler. -/
def extraChildren : List IONode → Option String
  | [] => none
  | c :: rest =>
    (extraChildren rest).orElse
      (fun _ => (extraIfInfo c).orElse (fun _ => handlerExtra c))

end

mutual

/-- Embedding of darwin._match_node_property: the search entry point runs a
loop over the children of the node. -/
def matchNodeProperty (key : String) (value : Option PValue) :
    IONode → Option IONode
  | .mk props children =>
    matchLoop key value (IONode.mk props children) children
termination_by n => sizeOf n

/-- Loop body of _match_node_property: each iteration first compares the
looping node's own property against the value, then recurses into the
current child; the first hit is returned. -/
def matchLoop (key : String) (value : Option PValue) (node : IONode) :
    List IONode → Option IONode
  | [] => none
  | c :: rest =>
    if node.get key = value then some node
    else
      match matchNodeProperty key value c with
      | some r => some r
      | none => matchLoop key value node rest
termination_by l => sizeOf l

end

/-- Raw record emitted by the darwin backend, one dictionary per device and
per interface. All keys are always present except mount, which the code
only adds after a successful mount-table lookup. -/
structure RawRec where
  idVendor : String
  idProduct : String
  iManufacturer : String
  iProduct : String
  iSerialNumber : String
  bNumEndpoints : String
  bInterfaceNumber : String
  devname : String
  mount : Option String
deriving DecidableEq, Repr

/-- Classification of an interface child node by the two class markers. -/
def isInterfaceNode (c : IONode) : Bool :=
  c.getS "IOUserClientClass" = some "IOUSBInterfaceUserClientV3"
    ∨ c.getS "IOObjectClass" = some "IOUSBInterface"

/-- Search of the El Capitan extras trees: for each tree in order, run
_match_node_property against the child's IORegistryEntryID; on the first
tree with a hit, return that node's extra info and stop. -/
def crossExtraInfo : List IONode → IONode → Option (Option String)
  | [], _ => none
  | t :: ts, child =>
    match matchNodeProperty "AppleUSBAlternateServiceRegistryID"
        (child.get "IORegistryEntryID") t with
    | some n => some (extraIfInfo n)
    | none => crossExtraInfo ts child

/-- Construction of one interface record in darwin.usbinfo: copy the device
record, overlay interface number and endpoint count, update the devname from
the cross-tree extras (on OS minor version at least 11) and then from the
local subtree, and attach a mount point when the mount table maps the final
devname to a non-empty path (the code tests the looked-up value for
truthiness). -/
def buildIfRecord (minor : Nat) (extras : List IONode)
    (mounts : String → Option String) (devinfo : RawRec) (child : IONode)
    (bIfS bNumS : String) : RawRec :=
  let base : RawRec := { devinfo with bInterfaceNumber := bIfS, bNumEndpoints := bNumS }
  let dnCross : String :=
    match (if 11 ≤ minor then crossExtraInfo extras child else none) with
    | some (some d) => d
    | _ => base.devname
  let dnFinal : String := (extraIfInfo child).getD dnCross
  let mnt : Option String :=
    match mounts dnFinal with
    | some s => if s = "" then none else some s
    | none => none
  { base with devname := dnFinal, mount := mnt }

/-- Interface loop of darwin.usbinfo over the direct children of a device
node: children classified as interfaces each yield a record; the subscript
lookups of bInterfaceNumber and bNumEndpoints raise KeyError when missing,
failing the whole query. -/
def processChildren (minor : Nat) (extras : List IONode)
    (mounts : String → Option String) (devinfo : RawRec) :
    List IONode → Except PyErr (List RawRec)
  | [] => .ok []
  | child :: rest =>
    if isInterfaceNode child then
      match child.getKey "bInterfaceNumber", child.getKey "bNumEndpoints" with
      | .ok bIf, .ok bNum =>
        (match processChildren minor extras mounts devinfo rest with
         | .ok restRecs =>
           .ok (buildIfRecord minor extras mounts devinfo child
             (pyStr bIf) (pyStr bNum) :: restRecs)
         | .error e => .error e)
      | .error e, _ => .error e
      | _, .error e => .error e
    else
      processChildren minor extras mounts devinfo rest

/-- Per-device body of darwin.usbinfo: a node lacking idVendor or idProduct
is skipped via the KeyError handler and contributes nothing; otherwise a
device record is emitted followed by one record per interface child. -/
def processNode (minor : Nat) (extras : List IONode)
    (mounts : String → Option String) (node : IONode) :
    Except PyErr (List RawRec) :=
  match node.get "idVendor", node.get "idProduct" with
  | some vid, some pid =>
    (match getStrEnc node "USB Vendor Name", getStrEnc node "USB Product Name",
        getStrEnc node "USB Serial Number" with
     | .ok vendor, .ok product, .ok serno =>
       (match fmtId vid, fmtId pid with
        | .ok vidS, .ok pidS =>
          let devinfo : RawRec :=
            { idVendor := vidS, idProduct := pidS, iManufacturer := vendor,
              iProduct := product, iSerialNumber := serno, bNumEndpoints := "1",
              bInterfaceNumber := "", devname := "", mount := none }
          (match processChildren minor extras mounts devinfo node.children with
           | .ok ifRecs => .ok (devinfo :: ifRecs)
           | .error e => .error e)
        | .error e, _ => .error e
        | _, .error e => .error e)
     | .error e, _, _ => .error e
     | _, .error e, _ => .error e
     | _, _, .error e => .error e)
  | _, _ => .ok []

/-- Device loop of darwin.usbinfo over the flattened device list. -/
def processDevices (minor : Nat) (extras : List IONode)
    (mounts : String → Option String) : List IONode → Except PyErr (List RawRec)
  | [] => .ok []
  | n :: rest =>
    match processNode minor extras mounts n with
    | .ok recs =>
      (match processDevices minor extras mounts rest with
       | .ok restRecs => .ok (recs ++ restRecs)
       | .error e => .error e)
    | .error e => .error e

/-- Embedding of darwin.usbinfo. The registry forest returned by ioreg, the
El Capitan extras forest and the mount table are inputs; minor is the OS X
minor version. -/
def darwin_usbinfo (minor : Nat) (forest : List IONode) (extras : List IONode)
    (mounts : String → Option String) : Except PyErr (List RawRec) :=
  processDevices minor extras mounts (usbDeviceForest forest)

/-- Property mapping of one udev device on the Linux side. -/
abbrev UDev := List (String × String)

/-- Dictionary lookup device.get(k) on a udev mapping. -/
def uget (d : UDev) (k : String) : Option String :=
  (d.find? (fun kv => kv.1 = k)).map (fun kv => kv.2)

/-- Raw record emitted by the Linux backend; it has no bNumEndpoints key. -/
structure LinuxRec where
  bInterfaceNumber : String
  iManufacturer : String
  idVendor : String
  iProduct : String
  idProduct : String
  iSerialNumber : String
  devname : String
  mount : Option String
deriving DecidableEq, Repr

/-- Record construction of linux.usbinfo for one retrieved device: every
property defaults to the empty string; the mount lookup is keyed by
device.get(DEVNAME) without a default, and the looked-up value is attached
only when truthy. -/
def mkLinuxRec (mounts : String → Option String) (d : UDev) : LinuxRec :=
  { bInterfaceNumber := (uget d "ID_USB_INTERFACE_NUM").getD ""
    iManufacturer := (uget d "ID_VENDOR").getD ""
    idVendor := (uget d "ID_VENDOR_ID").getD ""
    iProduct := (uget d "ID_MODEL").getD ""
    idProduct := (uget d "ID_MODEL_ID").getD ""
    iSerialNumber := (uget d "ID_SERIAL_SHORT").getD ""
    devname := (uget d "DEVNAME").getD ""
    mount :=
      match (uget d "DEVNAME").bind mounts with
      | some s => if s = "" then none else some s
      | none => none }

/-- Embedding of the iteration loop of linux.usbinfo: the listing is the
sequence of outcomes of the udev iterator, where none stands for an item
whose retrieval raised DeviceNotFoundError; such an item is skipped with
continue, a retrieved item yields one record, and the end of the listing
ends the loop. -/
def linux_usbinfo (mounts : String → Option String) :
    List (Option UDev) → List LinuxRec
  | [] => []
  | none :: rest => linux_usbinfo mounts rest
  | some d :: rest => mkLinuxRec mounts d :: linux_usbinfo mounts rest

/-- Whitespace test of the regex escape for s on a byte. -/
def isWsB (b : Nat) : Bool :=
  b = 32 || b = 9 || b = 10 || b = 11 || b = 12 || b = 13

/-- Byte sequence of an ASCII string literal. -/
def bytesOf (s : String) : List Nat :=
  s.data.map Char.toNat

/-- Opening markup matched by the sanitize pattern. -/
def strOpenTag : List Nat := bytesOf "<string>"

/-- Closing markup matched by the sanitize pattern. -/
def strCloseTag : List Nat := bytesOf "</string>"

/-- Split of a byte list at the first occurrence of a pattern: returns the
part before the first occurrence and the part after it. -/
def splitFirst (pat : List Nat) : List Nat → Option (List Nat × List Nat)
  | [] => if pat.isPrefixOf ([] : List Nat) then some ([], []) else none
  | b :: rest =>
    if pat.isPrefixOf (b :: rest) then some ([], (b :: rest).drop pat.length)
    else (splitFirst pat rest).map (fun pq => (b :: pq.1, pq.2))

/-- Match of the compiled sanitize pattern on one line, yielding the three
groups: leading whitespace plus the opening tag, the lazy payload up to the
first closing tag, and the closing tag with the remainder of the line. The
lazy leading group can only stop at the first non-whitespace byte, and the
lazy payload stops at the first occurrence of the closing tag. -/
def matchLine (l : List Nat) : Option (List Nat × List Nat × List Nat) :=
  let ws := l.takeWhile isWsB
  let rest := l.dropWhile isWsB
  if strOpenTag.isPrefixOf rest then
    match splitFirst strCloseTag (rest.drop strOpenTag.length) with
    | some (mid, post) => some (ws, mid, post)
    | none => none
  else none

/-- Uppercase hexadecimal digit byte for a value below 16. -/
def hexDigitUpper (n : Nat) : Nat :=
  if n < 10 then 48 + n else 55 + n

/-- Python formatting %02X of one byte: exactly two uppercase hexadecimal
digit bytes for input below 256. -/
def hexByte (b : Nat) : List Nat :=
  [hexDigitUpper (b / 16 % 16), hexDigitUpper (b % 16)]

/-- Per-line body of darwin._sanitize_xml: a line matching the sanitize
pattern whose payload holds a control byte (below 32) has the payload
re-encoded as uppercase hexadecimal pairs between the unchanged markup;
every other line passes through unchanged. -/
def sanitizeLine (l : List Nat) : List Nat :=
  match matchLine l with
  | none => l
  | some (ws, mid, post) =>
    if mid.any (fun b => b < 32) then
      ws ++ strOpenTag ++ mid.flatMap hexByte ++ strCloseTag ++ post
    else l

/-- Split of a byte document on the newline byte, as Python split. -/
def splitOnNL : List Nat → List (List Nat)
  | [] => [[]]
  | b :: rest =>
    if b = 10 then [] :: splitOnNL rest
    else
      match splitOnNL rest with
      | [] => [[b]]
      | l :: ls => (b :: l) :: ls

/-- Join of lines with the newline byte, as Python join. -/
def joinNL : List (List Nat) → List Nat
  | [] => []
  | [l] => l
  | l :: ls => l ++ 10 :: joinNL ls

/-- Embedding of darwin._sanitize_xml on a byte document: split into lines,
sanitize each line, and join back with newlines. -/
def sanitize_xml (d : List Nat) : List Nat :=
  joinNL ((splitOnNL d).map sanitizeLine)

/-- Canonical typed record of the query API, the Endpoint named tuple. -/
structure Endpoint where
  devname : Option String
  id_product : Int
  id_vendor : Int
  interface : Option Int
  mount : Option String
  num_endpoints : Option Int
  product : Option String
  serial_number : Option String
  vendor : Option String
deriving DecidableEq, Repr

/-- Dictionary lookup on a raw string-keyed record. -/
def dget (ep : List (String × String)) (k : String) : Option String :=
  (ep.find? (fun kv => kv.1 = k)).map (fun kv => kv.2)

/-- Value of one hexadecimal digit character, if any. -/
def hexVal (c : Char) : Option Nat :=
  if 48 ≤ c.toNat ∧ c.toNat ≤ 57 then some (c.toNat - 48)
  else if 97 ≤ c.toNat ∧ c.toNat ≤ 102 then some (c.toNat - 87)
  else if 65 ≤ c.toNat ∧ c.toNat ≤ 70 then some (c.toNat - 55)
  else none

/-- Accumulating base-16 evaluation of a digit character list. -/
def parseHexDigitsAux : List Char → Nat → Option Nat
  | [], acc => some acc
  | c :: rest, acc =>
    match hexVal c with
    | some d => parseHexDigitsAux rest (16 * acc + d)
    | none => none

/-- Base-16 value of a nonempty hexadecimal digit character list. -/
def parseHexDigits (l : List Char) : Option Nat :=
  if l = [] then none else parseHexDigitsAux l 0

/-- Python int(s, 16) on a plain hexadecimal numeral with an optional minus
sign; other accepted Python spellings (surrounding whitespace, a 0x marker,
a plus sign) do not occur in the records the code builds and are not
modelled. An unparsable string raises ValueError. -/
def pyIntBase16 (s : String) : Except PyErr Int :=
  match s.data with
  | '-' :: rest =>
    match parseHexDigits rest with
    | some n => .ok (-(n : Int))
    | none => .error .valueError
  | l =>
    match parseHexDigits l with
    | some n => .ok ((n : Int))
    | none => .error .valueError

/-- Python str.isdigit on ASCII text: nonempty and all decimal digits. -/
def pyIsDigit (s : String) : Bool :=
  !s.data.isEmpty && s.data.all (fun c => 48 ≤ c.toNat && c.toNat ≤ 57)

/-- Embedding of cast_int in _usbinfo_dict_to_endpoint: the value of the key
defaults to the empty string; a string of decimal digits is parsed with
int(value, 16), that is as base 16; anything else becomes None. -/
def cast_int (ep : List (String × String)) (key : String) : Option Int :=
  let value := (dget ep key).getD ""
  if pyIsDigit value then
    match parseHexDigits value.data with
    | some n => some ((n : Int))
    | none => none
  else none

/-- Embedding of _usbinfo_dict_to_endpoint: hex-string IDs are parsed with
int(x, 16), where a missing key gives None and int(None, 16) raises
TypeError; the remaining fields use dictionary get with a None default, and
the two numeric fields go through cast_int. -/
def usbinfo_dict_to_endpoint (ep : List (String × String)) :
    Except PyErr Endpoint :=
  match dget ep "idProduct" with
  | none => .error .typeError
  | some pS =>
    match pyIntBase16 pS with
    | .error e => .error e
    | .ok p =>
      match dget ep "idVendor" with
      | none => .error .typeError
      | some vS =>
        match pyIntBase16 vS with
        | .error e => .error e
        | .ok v =>
          .ok {
            devname := dget ep "devname"
            id_product := p
            id_vendor := v
            interface := cast_int ep "bInterfaceNumber"
            mount := dget ep "mount"
            num_endpoints := cast_int ep "bNumEndpoints"
            product := dget ep "iProduct"
            serial_number := dget ep "iSerialNumber"
            vendor := dget ep "iManufacturer" }

/-- Python value of a filter argument: an integer, a string, None, or a
value of any other type (the case the type check rejects). -/
inductive PyV where
  | vint (n : Int)
  | vstr (s : String)
  | vnone
  | vother
deriving DecidableEq, Repr

/-- isinstance check of key_value_match: integers, strings and None pass. -/
def isLegalFilterVal : PyV → Bool
  | .vint _ => true
  | .vstr _ => true
  | .vnone => true
  | .vother => false

/-- View of an optional string attribute as a Python value. -/
def ofOptStr : Option String → PyV
  | some s => .vstr s
  | none => .vnone

/-- View of an optional integer attribute as a Python value. -/
def ofOptInt : Option Int → PyV
  | some n => .vint n
  | none => .vnone

/-- Attribute access endpoint.__getattribute__(key): a known field yields
its Python value, an unknown name raises AttributeError. -/
def getattrOn (e : Endpoint) (k : String) : Except PyErr PyV :=
  if k = "devname" then .ok (ofOptStr e.devname)
  else if k = "id_product" then .ok (.vint e.id_product)
  else if k = "id_vendor" then .ok (.vint e.id_vendor)
  else if k = "interface" then .ok (ofOptInt e.interface)
  else if k = "mount" then .ok (ofOptStr e.mount)
  else if k = "num_endpoints" then .ok (ofOptInt e.num_endpoints)
  else if k = "product" then .ok (ofOptStr e.product)
  else if k = "serial_number" then .ok (ofOptStr e.serial_number)
  else if k = "vendor" then .ok (ofOptStr e.vendor)
  else .error .attrError

/-- Embedding of key_value_match: each filter value is first type-checked
(TypeError on an illegal type), then compared against the attribute; the
first mismatch returns False without inspecting later filters. -/
def key_value_match (e : Endpoint) : List (String × PyV) → Except PyErr Bool
  | [] => .ok true
  | (k, v) :: rest =>
    if !(isLegalFilterVal v) then .error .typeError
    else do
      let pv ← getattrOn e k
      if pv ≠ v then .ok false
      else key_value_match e rest

/-- Filtering comprehension of endpoints over the decoded record list. -/
def filterEndpoints (filters : List (String × PyV)) :
    List Endpoint → Except PyErr (List Endpoint)
  | [] => .ok []
  | e :: rest => do
    let b ← key_value_match e filters
    let restF ← filterEndpoints filters rest
    .ok (if b then e :: restF else restF)

/-- Parameter names of darwin.usbinfo, which is defined with no
parameters. -/
def darwinUsbinfoParams : List String := []

/-- Parameter names of linux.usbinfo, which is defined with no
parameters. -/
def linuxUsbinfoParams : List String := []

/-- Embedding of the endpoints entry point. Python evaluates the call
expression of the bound backend with the keyword argument decode_model; by
the calling convention, a keyword that is not among the parameter names of
the callee raises TypeError before the callee body starts. The Boolean
component records whether the backend body (and with it the platform
enumeration and the mount-table read it performs) was ever entered. When the
call succeeds, every raw record is decoded and the filters are applied. -/
def endpointsCall (backendParams : List String)
    (runBackend : Unit → Except PyErr (List (List (String × String))))
    (filters : List (String × PyV)) : Except PyErr (List Endpoint) × Bool :=
  if "decode_model" ∈ backendParams then
    match runBackend () with
    | .error e => (.error e, true)
    | .ok raws =>
      (do
        let eps ← raws.mapM usbinfo_dict_to_endpoint
        filterEndpoints filters eps, true)
  else (.error .typeError, false)

mutual

/-- Pre-order depth-first listing of a tree, the node before its children,
children in their listed order: the traversal order named by the
specification. -/
def preorder : IONode → List IONode
  | .mk props children => IONode.mk props children :: preorderForest children

/-- Pre-order depth-first listing of a forest. -/
def preorderForest : List IONode → List IONode
  | [] => []
  | n :: rest => preorder n ++ preorderForest rest

end

/-- Lowercase-hexadecimal-digit test on a character. -/
def isLowerHexDigit (c : Char) : Bool :=
  (48 ≤ c.toNat && c.toNat ≤ 57) || (97 ≤ c.toNat && c.toNat ≤ 102)

/-- Test that a string is exactly four lowercase hexadecimal digits. -/
def isHex4 (s : String) : Bool :=
  s.length = 4 && s.data.all isLowerHexDigit

mutual

/-- Characterization of usbDevice as a filter of the pre-order listing. -/
theorem usbDevice_preorder (n : IONode) :
    usbDevice n = (preorder n).filter (fun m => m.hasKey "sessionID") := by
  cases n with
  | mk props children =>
    rw [usbDevice, preorder, usbDeviceForest_preorder children]
    by_cases h : (IONode.mk props children).hasKey "sessionID" <;>
      simp [h, List.filter]

/-- Characterization of usbDeviceForest as a filter of the pre-order
listing of the forest. -/
theorem usbDeviceForest_preorder (l : List IONode) :
    usbDeviceForest l = (preorderForest l).filter (fun m => m.hasKey "sessionID") := by
  cases l with
  | nil => rw [usbDeviceForest, preorderForest]; rfl
  | cons n rest =>
    rw [usbDeviceForest, preorderForest, usbDevice_preorder n,
      usbDeviceForest_preorder rest, List.filter_append]

end

/-- C5: for every forest of registry nodes, the platform-A device collection
returns exactly the nodes carrying a sessionID property, in pre-order
depth-first order with each node's children processed in their listed
order. -/
theorem c5_device_collection_is_preorder_filter (forest : List IONode) :
    usbDeviceForest forest =
      (preorderForest forest).filter (fun m => m.hasKey "sessionID") :=
  usbDeviceForest_preorder forest

/-- C7: for every platform-B device listing in which retrieving some items
raises a device-vanished condition (the none items), the query skips exactly
those items and returns one record per successfully retrieved item in
listing order; in particular a listing of five items whose third retrieval
fails yields the records of items 1, 2, 4 and 5. -/
theorem c7_linux_skips_vanished_items (mounts : String → Option String)
    (listing : List (Option UDev)) :
    linux_usbinfo mounts listing =
      (listing.filterMap id).map (mkLinuxRec mounts)
    ∧ ∀ d1 d2 d4 d5 : UDev,
        linux_usbinfo mounts [some d1, some d2, none, some d4, some d5] =
          [mkLinuxRec mounts d1, mkLinuxRec mounts d2,
           mkLinuxRec mounts d4, mkLinuxRec mounts d5] := by
  constructor
  · induction listing with
    | nil => rfl
    | cons it rest ih => cases it <;> simp [linux_usbinfo, ih]
  · intro d1 d2 d4 d5
    simp [linux_usbinfo]

/-- C10: for every host state (any backend behavior and any filters), the
typed query endpoints raises TypeError before producing any record list,
because it calls the bound backend with the decode_model keyword while both
platform backends define usbinfo with no parameters; the platform
enumeration is never entered. -/
theorem c10_endpoints_always_raises_type_error
    (runDarwin runLinux : Unit → Except PyErr (List (List (String × String))))
    (filters : List (String × PyV)) :
    endpointsCall darwinUsbinfoParams runDarwin filters =
      (.error .typeError, false)
    ∧ endpointsCall linuxUsbinfoParams runLinux filters =
      (.error .typeError, false) := by
  constructor <;> simp [endpointsCall, darwinUsbinfoParams, linuxUsbinfoParams]

/-- C3: for every call of the typed query endpoints in which some filter
value has a type other than integer, string or None, the call is rejected
with TypeError before any platform enumeration or mount-table read is
performed (the Boolean component stays false), on both platforms. -/
theorem c3_illegal_filter_rejected_before_io
    (runDarwin runLinux : Unit → Except PyErr (List (List (String × String))))
    (filters : List (String × PyV))
    (hbad : ∃ kv ∈ filters, isLegalFilterVal kv.2 = false) :
    endpointsCall darwinUsbinfoParams runDarwin filters =
      (.error .typeError, false)
    ∧ endpointsCall linuxUsbinfoParams runLinux filters =
      (.error .typeError, false) := by
  constructor <;> simp [endpointsCall, darwinUsbinfoParams, linuxUsbinfoParams]

/-- Witness for C3 at a concrete input: a filter list holding a value of an
unsupported type exists and the call is rejected without platform work. -/
theorem c3_witness :
    (∃ kv ∈ [("id_vendor", PyV.vother)], isLegalFilterVal kv.2 = false)
    ∧ endpointsCall darwinUsbinfoParams (fun _ => .ok [])
        [("id_vendor", PyV.vother)] = (.error .typeError, false) :=
  ⟨⟨("id_vendor", PyV.vother), by simp, rfl⟩,
    (c3_illegal_filter_rejected_before_io (fun _ => .ok []) (fun _ => .ok [])
      [("id_vendor", PyV.vother)]
      ⟨("id_vendor", PyV.vother), by simp, rfl⟩).1⟩

/-- Interface records copy the device identity fields unchanged. -/
theorem buildIfRecord_ids (minor : Nat) (extras : List IONode)
    (mounts : String → Option String) (devinfo : RawRec) (child : IONode)
    (bIfS bNumS : String) :
    (buildIfRecord minor extras mounts devinfo child bIfS bNumS).idVendor =
      devinfo.idVendor
    ∧ (buildIfRecord minor extras mounts devinfo child bIfS bNumS).idProduct =
      devinfo.idProduct := by
  constructor <;> rfl

/-- Truthiness-guarded mount attachment yields exactly the mapped value. -/
theorem mountJoin_spec (mounts : String → Option String) (dn m : String)
    (h : (match mounts dn with
          | some s => if s = "" then none else some s
          | none => none) = some m) : mounts dn = some m := by
  cases hm : mounts dn with
  | none => rw [hm] at h; simp at h
  | some s =>
    rw [hm] at h
    by_cases hs : s = ""
    · rw [hs] at h; simp at h
    · simp only [hs, if_false] at h
      exact h

/-- An interface record carries a mount only when the mount table maps its
final devname to exactly that mount point. -/
theorem buildIfRecord_mount (minor : Nat) (extras : List IONode)
    (mounts : String → Option String) (devinfo : RawRec) (child : IONode)
    (bIfS bNumS : String) (m : String)
    (h : (buildIfRecord minor extras mounts devinfo child bIfS bNumS).mount =
      some m) :
    mounts (buildIfRecord minor extras mounts devinfo child bIfS bNumS).devname =
      some m :=
  mountJoin_spec mounts
    (buildIfRecord minor extras mounts devinfo child bIfS bNumS).devname m h

/-- Every record produced by the interface loop copies the device identity
fields and satisfies the mount-join property. -/
theorem processChildren_spec (minor : Nat) (extras : List IONode)
    (mounts : String → Option String) (devinfo : RawRec)
    (cs : List IONode) (l : List RawRec)
    (h : processChildren minor extras mounts devinfo cs = .ok l) :
    ∀ r ∈ l, r.idVendor = devinfo.idVendor ∧ r.idProduct = devinfo.idProduct
      ∧ ∀ m, r.mount = some m → mounts r.devname = some m := by
  induction cs generalizing l with
  | nil =>
    rw [processChildren] at h
    injection h with h
    subst h
    simp
  | cons child rest ih =>
    rw [processChildren] at h
    split at h
    · split at h
      · split at h
        · injection h with h
          subst h
          intro r hr
          rcases List.mem_cons.mp hr with hr | hr
          · subst hr
            refine ⟨(buildIfRecord_ids ..).1, (buildIfRecord_ids ..).2, ?_⟩
            intro m hm
            exact buildIfRecord_mount minor extras mounts devinfo child _ _ m hm
          · exact ih _ (by assumption) r hr
        · exact absurd h (by simp)
      · exact absurd h (by simp)
      · exact absurd h (by simp)
    · exact ih _ h

/-- A device node lacking idVendor or idProduct contributes no record at
all: the KeyError handler skips it. -/
theorem processNode_skip (minor : Nat) (extras : List IONode)
    (mounts : String → Option String) (node : IONode)
    (h : node.get "idVendor" = none ∨ node.get "idProduct" = none) :
    processNode minor extras mounts node = .ok [] := by
  rw [processNode]
  cases hv : node.get "idVendor" with
  | none => rcases h with h | h <;> simp
  | some vid =>
    cases hp : node.get "idProduct" with
    | none => simp
    | some pid =>
      rcases h with h | h
      · rw [hv] at h; exact absurd h (by simp)
      · rw [hp] at h; exact absurd h (by simp)

/-- Every record emitted for one device node carries identity fields that
are the %0.4x rendering of the node's idVendor and idProduct values, and
satisfies the mount-join property. -/
theorem processNode_spec (minor : Nat) (extras : List IONode)
    (mounts : String → Option String) (node : IONode) (l : List RawRec)
    (h : processNode minor extras mounts node = .ok l) :
    ∀ r ∈ l,
      (∃ vid pid, node.get "idVendor" = some vid
        ∧ node.get "idProduct" = some pid
        ∧ fmtId vid = .ok r.idVendor ∧ fmtId pid = .ok r.idProduct)
      ∧ ∀ m, r.mount = some m → mounts r.devname = some m := by
  rw [processNode] at h
  split at h
  · rename_i vid pid hv hp
    split at h
    · split at h
      · rename_i vidS pidS hfv hfp
        dsimp only at h
        split at h
        · rename_i ifRecs hchildren
          injection h with h
          subst h
          intro r hr
          rcases List.mem_cons.mp hr with hr | hr
          · subst hr
            exact ⟨⟨vid, pid, hv, hp, hfv, hfp⟩, by simp⟩
          · have hc := processChildren_spec minor extras mounts _ _ _ hchildren r hr
            refine ⟨⟨vid, pid, hv, hp, ?_, ?_⟩, hc.2.2⟩
            · rw [hc.1]; exact hfv
            · rw [hc.2.1]; exact hfp
        · exact absurd h (by simp)
      · exact absurd h (by simp)
      · exact absurd h (by simp)
    · exact absurd h (by simp)
    · exact absurd h (by simp)
    · exact absurd h (by simp)
  all_goals (injection h with h; subst h; simp)

/-- Every record of a successful darwin query comes from the processing of
some collected device node. -/
theorem processDevices_spec (minor : Nat) (extras : List IONode)
    (mounts : String → Option String) (devs : List IONode) (l : List RawRec)
    (h : processDevices minor extras mounts devs = .ok l) :
    ∀ r ∈ l, ∃ node ∈ devs, ∃ ln,
      processNode minor extras mounts node = .ok ln ∧ r ∈ ln := by
  induction devs generalizing l with
  | nil =>
    rw [processDevices] at h
    injection h with h
    subst h
    simp
  | cons n rest ih =>
    rw [processDevices] at h
    split at h
    · rename_i recs hn
      split at h
      · rename_i restRecs hrest
        injection h with h
        subst h
        intro r hr
        rcases List.mem_append.mp hr with hr | hr
        · exact ⟨n, List.mem_cons_self n rest, recs, hn, hr⟩
        · obtain ⟨nd, hnd, ln, hln, hrln⟩ := ih _ hrest r hr
          exact ⟨nd, List.mem_cons_of_mem n hnd, ln, hln, hrln⟩
      · exact absurd h (by simp)
    · exact absurd h (by simp)

/-- Records of the Linux backend carry a mount only when the mount table
maps their devname to exactly that mount point. -/
theorem linux_mount_spec (mounts : String → Option String)
    (listing : List (Option UDev)) :
    ∀ r ∈ linux_usbinfo mounts listing, ∀ m, r.mount = some m →
      mounts r.devname = some m := by
  induction listing with
  | nil => simp [linux_usbinfo]
  | cons it rest ih =>
    cases it with
    | none => rw [linux_usbinfo]; exact ih
    | some d =>
      rw [linux_usbinfo]
      intro r hr m hm
      rcases List.mem_cons.mp hr with hr | hr
      · subst hr
        have hd : (mkLinuxRec mounts d).devname = (uget d "DEVNAME").getD "" := rfl
        cases hu : uget d "DEVNAME" with
        | none =>
          exfalso
          have : (mkLinuxRec mounts d).mount = none := by
            simp [mkLinuxRec, hu]
          rw [this] at hm
          exact Option.noConfusion hm
        | some k =>
          have hmt : (mkLinuxRec mounts d).mount =
              (match mounts k with
               | some s => if s = "" then none else some s
               | none => none) := by
            simp [mkLinuxRec, hu]
          rw [hmt] at hm
          have := mountJoin_spec mounts k m hm
          rw [hd, hu]
          exact this
      · exact ih r hr m hm

/-- Registry input for the C2 counterexample: one device whose interface
exposes the block device /dev/disk2s1. -/
def c2Dev : IONode :=
  .mk [("sessionID", .int 1), ("idVendor", .int 1452), ("idProduct", .int 32775)]
    [.mk [("IOObjectClass", .str "IOUSBInterface"), ("bInterfaceNumber", .int 0),
          ("bNumEndpoints", .int 2)]
       [.mk [("IOObjectClass", .str "IOFDiskPartitionScheme")]
          [.mk [("BSD Name", .str "disk2s1")] []]]]

/-- Mount table for the C2 counterexample: /dev/disk2s1 is a key, mapped to
the empty mount point. -/
def c2Mounts : String → Option String :=
  fun s => if s = "/dev/disk2s1" then some "" else none

/-- Device-level record the C2 counterexample query emits. -/
def c2DevRec : RawRec :=
  { idVendor := "05ac", idProduct := "8007", iManufacturer := "",
    iProduct := "", iSerialNumber := "", bNumEndpoints := "1",
    bInterfaceNumber := "", devname := "", mount := none }

/-- Interface-level record the C2 counterexample query emits. -/
def c2IfRec : RawRec :=
  { idVendor := "05ac", idProduct := "8007", iManufacturer := "",
    iProduct := "", iSerialNumber := "", bNumEndpoints := "2",
    bInterfaceNumber := "0", devname := "/dev/disk2s1", mount := none }

/-- C2 counterexample: a record whose devname is a key of the mount table
read for the query can still carry no mount entry (the code drops falsy
mount values, and device-level records are never joined at all), so the
claimed "if and only if" fails. -/
theorem c2_counterexample :
    darwin_usbinfo 9 [c2Dev] [] c2Mounts = .ok [c2DevRec, c2IfRec]
    ∧ c2IfRec.devname = "/dev/disk2s1"
    ∧ c2Mounts "/dev/disk2s1" = some ""
    ∧ c2IfRec.mount = none :=
  ⟨rfl, rfl, rfl, rfl⟩

/-- C2 amended: on both platforms, a record that carries a mount entry has a
devname that is a key of the mount-table mapping read for that query, and
the mount value equals the mapped mount point; the converse direction of the
original claim is false (see the counterexample). -/
theorem c2_amended_mount_implies_mapped :
    (∀ (minor : Nat) (forest extras : List IONode)
        (mounts : String → Option String) (l : List RawRec),
      darwin_usbinfo minor forest extras mounts = .ok l →
      ∀ r ∈ l, ∀ m, r.mount = some m → mounts r.devname = some m)
    ∧ ∀ (mounts : String → Option String) (listing : List (Option UDev)),
        ∀ r ∈ linux_usbinfo mounts listing, ∀ m, r.mount = some m →
          mounts r.devname = some m := by
  constructor
  · intro minor forest extras mounts l h r hr m hm
    obtain ⟨node, _, ln, hln, hrln⟩ :=
      processDevices_spec minor extras mounts _ _ h r hr
    exact (processNode_spec minor extras mounts node ln hln r hrln).2 m hm
  · exact linux_mount_spec

/-- Mount table for the C2 witness. -/
def c2wMounts : String → Option String :=
  fun s => if s = "/dev/sda1" then some "/mnt" else none

/-- Device listing for the C2 witness. -/
def c2wDev : UDev := [("DEVNAME", "/dev/sda1")]

/-- Witness for the amended C2 at a concrete input: a Linux record that
carries mount /mnt indeed has its devname mapped to /mnt by the table. -/
theorem c2_amended_witness :
    c2wMounts (mkLinuxRec c2wMounts c2wDev).devname = some "/mnt" :=
  c2_amended_mount_implies_mapped.2 c2wMounts [some c2wDev]
    (mkLinuxRec c2wMounts c2wDev) (by rw [linux_usbinfo]; exact List.mem_cons_self _ _)
    "/mnt" rfl

/-- Well-formedness of a raw ID property: absent, or a 16-bit unsigned
integer; a string-valued or out-of-range ID is ill-formed. -/
def wfId : Option PValue → Bool
  | some (.int n) => decide (0 ≤ n) && decide (n < 65536)
  | some (.str _) => false
  | none => true

/-- Digits produced by hexDigitLower are lowercase hexadecimal digits. -/
theorem hexDigitLower_isLower : ∀ m, m < 16 → isLowerHexDigit (hexDigitLower m) = true := by
  decide

/-- Length bound of the hex-digit loop: a number below 16^k yields at most k
digits on top of the accumulator. -/
theorem natToHexAux_length : ∀ (fuel n : Nat) (acc : List Char) (k : Nat),
    n < 16 ^ k → (natToHexAux fuel n acc).length ≤ k + acc.length := by
  intro fuel
  induction fuel with
  | zero =>
    intro n acc k h
    rw [natToHexAux]
    omega
  | succ fuel ih =>
    intro n acc k h
    match n with
    | 0 =>
      rw [natToHexAux]
      omega
    | m + 1 =>
      rw [natToHexAux]
      match k with
      | 0 => simp at h
      | k0 + 1 =>
        have hdiv : (m + 1) / 16 < 16 ^ k0 := by
          have hmul : (m + 1) < 16 * 16 ^ k0 := by
            rw [← pow_succ']
            exact h
          exact Nat.div_lt_of_lt_mul hmul
        have hrec := ih ((m + 1) / 16) (hexDigitLower ((m + 1) % 16) :: acc) k0 hdiv
        simp only [List.length_cons] at hrec
        omega

/-- Every character produced by the hex-digit loop over a hex-digit
accumulator is a lowercase hexadecimal digit. -/
theorem natToHexAux_mem : ∀ (fuel n : Nat) (acc : List Char) (c : Char),
    (∀ x ∈ acc, isLowerHexDigit x = true) →
    c ∈ natToHexAux fuel n acc → isLowerHexDigit c = true := by
  intro fuel
  induction fuel with
  | zero =>
    intro n acc c hacc hc
    rw [natToHexAux] at hc
    exact hacc c hc
  | succ fuel ih =>
    intro n acc c hacc hc
    match n with
    | 0 =>
      rw [natToHexAux] at hc
      exact hacc c hc
    | m + 1 =>
      rw [natToHexAux] at hc
      refine ih ((m + 1) / 16) _ c ?_ hc
      intro x hx
      rcases List.mem_cons.mp hx with hx | hx
      · subst hx
        exact hexDigitLower_isLower _ (Nat.mod_lt _ (by omega))
      · exact hacc x hx

/-- The %0.4x rendering of a 16-bit unsigned integer is exactly four
lowercase hexadecimal digits. -/
theorem isHex4_pyHexPrec4 (n : Int) (h0 : 0 ≤ n) (h1 : n < 65536) :
    isHex4 (pyHexPrec4 n) = true := by
  rw [pyHexPrec4, if_neg (by omega : ¬ n < 0)]
  have hlt : n.toNat < 16 ^ 4 := by
    have : (16 : Nat) ^ 4 = 65536 := by norm_num
    omega
  have hlen : (natToHex n.toNat).length ≤ 4 := by
    rw [natToHex]
    split
    · simp
    · simpa using natToHexAux_length n.toNat n.toNat [] 4 hlt
  have hmem : ∀ c ∈ natToHex n.toNat, isLowerHexDigit c = true := by
    rw [natToHex]
    split
    · intro c hc
      simp at hc
      subst hc
      decide
    · intro c hc
      exact natToHexAux_mem n.toNat n.toNat [] c (by simp) hc
  have hlen4 : (padZeros 4 (natToHex n.toNat)).length = 4 := by
    rw [padZeros, List.length_append, List.length_replicate]
    omega
  rw [isHex4, Bool.and_eq_true]
  refine ⟨by simpa using hlen4, ?_⟩
  show (padZeros 4 (natToHex n.toNat)).all isLowerHexDigit = true
  rw [List.all_eq_true]
  intro x hx
  rw [padZeros] at hx
  rcases List.mem_append.mp hx with hx | hx
  · rw [List.eq_of_mem_replicate hx]
    decide
  · exact hmem x hx

/-- C1: for every darwin query, a registry device node lacking idVendor or
idProduct contributes no record at all, and under the precondition that the
raw IDs carried by the collected device nodes are 16-bit unsigned integers,
every emitted record renders id_vendor and id_product as exactly four
lowercase hexadecimal digits. -/
theorem c1_id_format :
    (∀ (minor : Nat) (extras : List IONode) (mounts : String → Option String)
        (node : IONode),
      node.get "idVendor" = none ∨ node.get "idProduct" = none →
      processNode minor extras mounts node = .ok [])
    ∧ ∀ (minor : Nat) (forest extras : List IONode)
        (mounts : String → Option String) (l : List RawRec),
      (∀ node ∈ usbDeviceForest forest,
        wfId (node.get "idVendor") = true ∧ wfId (node.get "idProduct") = true) →
      darwin_usbinfo minor forest extras mounts = .ok l →
      ∀ r ∈ l, isHex4 r.idVendor = true ∧ isHex4 r.idProduct = true := by
  constructor
  · exact fun minor extras mounts node h => processNode_skip minor extras mounts node h
  · intro minor forest extras mounts l hwf h r hr
    obtain ⟨node, hnode, ln, hln, hrln⟩ :=
      processDevices_spec minor extras mounts _ _ h r hr
    obtain ⟨⟨vid, pid, hv, hp, hfv, hfp⟩, _⟩ :=
      processNode_spec minor extras mounts node ln hln r hrln
    obtain ⟨hwv, hwp⟩ := hwf node hnode
    rw [hv] at hwv
    rw [hp] at hwp
    constructor
    · cases vid with
      | str s => exact absurd hwv (by simp [wfId])
      | int nn =>
        rw [wfId, Bool.and_eq_true, decide_eq_true_eq, decide_eq_true_eq] at hwv
        rw [fmtId] at hfv
        injection hfv with hfv
        rw [← hfv]
        exact isHex4_pyHexPrec4 nn hwv.1 hwv.2
    · cases pid with
      | str s => exact absurd hwp (by simp [wfId])
      | int nn =>
        rw [wfId, Bool.and_eq_true, decide_eq_true_eq, decide_eq_true_eq] at hwp
        rw [fmtId] at hfp
        injection hfp with hfp
        rw [← hfp]
        exact isHex4_pyHexPrec4 nn hwp.1 hwp.2

/-- Registry input for the C1 witness: one well-formed device node. -/
def c1Node : IONode :=
  .mk [("sessionID", .int 1), ("idVendor", .int 1452), ("idProduct", .int 32775)] []

/-- Record the C1 witness query emits. -/
def c1Rec : RawRec :=
  { idVendor := "05ac", idProduct := "8007", iManufacturer := "",
    iProduct := "", iSerialNumber := "", bNumEndpoints := "1",
    bInterfaceNumber := "", devname := "", mount := none }

/-- Witness for C1 at a concrete input: the emitted identity fields are
four lowercase hexadecimal digits. -/
theorem c1_witness : isHex4 c1Rec.idVendor = true ∧ isHex4 c1Rec.idProduct = true :=
  c1_id_format.2 9 [c1Node] [] (fun _ => none) [c1Rec]
    (by
      intro node hn
      rw [show usbDeviceForest [c1Node] = [c1Node] from rfl] at hn
      rw [List.mem_singleton] at hn
      subst hn
      exact ⟨rfl, rfl⟩)
    rfl c1Rec (List.mem_singleton.mpr rfl)

/-- Well-formedness for success: an ID property is absent or an integer (a
string value would make the %0.4x formatting raise). -/
def wfIdPresence : Option PValue → Bool
  | some (.str _) => false
  | _ => true

/-- Well-formedness for success: a name property is absent or a string (an
integer value would make the ascii encode raise). -/
def wfNameProp : Option PValue → Bool
  | some (.int _) => false
  | _ => true

/-- Well-formedness for success of one direct child: an interface-classified
child must carry bInterfaceNumber and bNumEndpoints, as the code subscripts
them. -/
def interfaceChildOk (c : IONode) : Bool :=
  !(isInterfaceNode c) || (c.hasKey "bInterfaceNumber" && c.hasKey "bNumEndpoints")

/-- Well-formedness for success of one device node. -/
def nodeOk (n : IONode) : Bool :=
  wfIdPresence (n.get "idVendor") && wfIdPresence (n.get "idProduct")
    && wfNameProp (n.get "USB Vendor Name")
    && wfNameProp (n.get "USB Product Name")
    && wfNameProp (n.get "USB Serial Number")
    && n.children.all interfaceChildOk

/-- A name lookup on a well-formed property succeeds. -/
theorem getStrEnc_ok (n : IONode) (k : String)
    (h : wfNameProp (n.get k) = true) : ∃ s, getStrEnc n k = .ok s := by
  rw [getStrEnc]
  cases hg : n.get k with
  | none => exact ⟨"", rfl⟩
  | some v =>
    cases v with
    | str s => exact ⟨asciiIgnore s, rfl⟩
    | int m =>
      rw [hg] at h
      simp [wfNameProp] at h

/-- The interface loop succeeds when every interface-classified child
carries both subscripted keys. -/
theorem processChildren_ok (minor : Nat) (extras : List IONode)
    (mounts : String → Option String) (devinfo : RawRec) (cs : List IONode)
    (h : cs.all interfaceChildOk = true) :
    (processChildren minor extras mounts devinfo cs).isOk = true := by
  induction cs with
  | nil => rfl
  | cons child rest ih =>
    rw [List.all_cons, Bool.and_eq_true] at h
    rw [processChildren]
    by_cases hi : isInterfaceNode child
    · have hk : child.hasKey "bInterfaceNumber" = true
          ∧ child.hasKey "bNumEndpoints" = true := by
        have := h.1
        rw [interfaceChildOk, hi] at this
        simpa using this
      rw [if_pos hi]
      obtain ⟨v1, hv1⟩ := Option.isSome_iff_exists.mp hk.1
      obtain ⟨v2, hv2⟩ := Option.isSome_iff_exists.mp hk.2
      rw [show child.getKey "bInterfaceNumber" = .ok v1 by rw [IONode.getKey, hv1],
        show child.getKey "bNumEndpoints" = .ok v2 by rw [IONode.getKey, hv2]]
      cases hrest : processChildren minor extras mounts devinfo rest with
      | ok restRecs => rfl
      | error e =>
        have := ih h.2
        rw [hrest] at this
        exact Bool.noConfusion this
    · rw [if_neg hi]
      exact ih h.2

/-- Processing one well-formed device node succeeds. -/
theorem processNode_ok (minor : Nat) (extras : List IONode)
    (mounts : String → Option String) (node : IONode)
    (h : nodeOk node = true) : (processNode minor extras mounts node).isOk = true := by
  rw [nodeOk] at h
  simp only [Bool.and_eq_true] at h
  obtain ⟨⟨⟨⟨⟨h1, h2⟩, h3⟩, h4⟩, h5⟩, h6⟩ := h
  rw [processNode]
  cases hv : node.get "idVendor" with
  | none => rfl
  | some vid =>
    cases hp : node.get "idProduct" with
    | none => rfl
    | some pid =>
      obtain ⟨vs, hvs⟩ := getStrEnc_ok node "USB Vendor Name" h3
      obtain ⟨ps, hps⟩ := getStrEnc_ok node "USB Product Name" h4
      obtain ⟨ss, hss⟩ := getStrEnc_ok node "USB Serial Number" h5
      rw [hvs, hps, hss]
      have hvi : ∃ nn, vid = PValue.int nn := by
        rw [hv] at h1
        cases vid with
        | int nn => exact ⟨nn, rfl⟩
        | str s => simp [wfIdPresence] at h1
      have hpi : ∃ nn, pid = PValue.int nn := by
        rw [hp] at h2
        cases pid with
        | int nn => exact ⟨nn, rfl⟩
        | str s => simp [wfIdPresence] at h2
      obtain ⟨nv, hnv⟩ := hvi
      obtain ⟨np, hnp⟩ := hpi
      subst hnv
      subst hnp
      dsimp only
      rw [show fmtId (PValue.int nv) = .ok (pyHexPrec4 nv) from rfl,
        show fmtId (PValue.int np) = .ok (pyHexPrec4 np) from rfl]
      dsimp only
      cases hch : processChildren minor extras mounts _ node.children with
      | ok ifRecs => rfl
      | error e =>
        have hok := processChildren_ok minor extras mounts
          { idVendor := pyHexPrec4 nv, idProduct := pyHexPrec4 np,
            iManufacturer := vs, iProduct := ps, iSerialNumber := ss,
            bNumEndpoints := "1", bInterfaceNumber := "", devname := "",
            mount := none } node.children h6
        rw [hch] at hok
        exact Bool.noConfusion hok

/-- The device loop succeeds when every collected node is well-formed. -/
theorem processDevices_ok (minor : Nat) (extras : List IONode)
    (mounts : String → Option String) (devs : List IONode)
    (h : ∀ node ∈ devs, nodeOk node = true) :
    (processDevices minor extras mounts devs).isOk = true := by
  induction devs with
  | nil => rfl
  | cons n rest ih =>
    rw [processDevices]
    cases hn : processNode minor extras mounts n with
    | error e =>
      have := processNode_ok minor extras mounts n (h n (List.mem_cons_self n rest))
      rw [hn] at this
      exact Bool.noConfusion this
    | ok recs =>
      cases hrest : processDevices minor extras mounts rest with
      | ok restRecs => rfl
      | error e =>
        have := ih (fun node hnd => h node (List.mem_cons_of_mem n hnd))
        rw [hrest] at this
        exact Bool.noConfusion this

/-- Nodes lacking an identity key contribute nothing, so the device loop
equals the loop over the identity-complete nodes only. -/
theorem processDevices_filter (minor : Nat) (extras : List IONode)
    (mounts : String → Option String) (devs : List IONode) :
    processDevices minor extras mounts devs =
      processDevices minor extras mounts
        (devs.filter (fun n => n.hasKey "idVendor" && n.hasKey "idProduct")) := by
  induction devs with
  | nil => rfl
  | cons n rest ih =>
    by_cases hb : (n.hasKey "idVendor" && n.hasKey "idProduct") = true
    · rw [@List.filter_cons_of_pos _ (fun nd => nd.hasKey "idVendor" && nd.hasKey "idProduct") n rest hb,
        processDevices, processDevices, ih]
    · rw [@List.filter_cons_of_neg _ (fun nd => nd.hasKey "idVendor" && nd.hasKey "idProduct") n rest hb,
        processDevices]
      have hmiss : n.get "idVendor" = none ∨ n.get "idProduct" = none := by
        rw [Bool.and_eq_true] at hb
        rw [IONode.hasKey, IONode.hasKey] at hb
        rcases not_and_or.mp hb with hx | hx
        · exact Or.inl (Option.not_isSome_iff_eq_none.mp (by simpa using hx))
        · exact Or.inr (Option.not_isSome_iff_eq_none.mp (by simpa using hx))
      rw [processNode_skip minor extras mounts n hmiss]
      rw [← ih]
      cases hrest : processDevices minor extras mounts rest with
      | ok restRecs => simp
      | error e => rfl

/-- Registry input for the C4 counterexample: a well-formed device node with
an interface-classified child lacking bInterfaceNumber and bNumEndpoints. -/
def c4Node : IONode :=
  .mk [("sessionID", .int 1), ("idVendor", .int 1452), ("idProduct", .int 32775)]
    [.mk [("IOObjectClass", .str "IOUSBInterface")] []]

/-- C4 counterexample: an interface-classified child missing its
bInterfaceNumber key is not silently skipped; the subscript raises KeyError
and the whole query fails instead of returning the remaining records. -/
theorem c4_counterexample :
    darwin_usbinfo 9 [c4Node] [] (fun _ => none) = .error .keyError := rfl

/-- C4 amended: a device node lacking idVendor or idProduct is silently
skipped with no partial record and the query result equals the run over the
identity-complete device nodes only, and the query succeeds whenever every
collected device node is well-formed; however, an interface-classified
child missing bInterfaceNumber or bNumEndpoints fails the whole query (see
the counterexample) rather than being skipped. -/
theorem c4_missing_fields_policy :
    (∀ (minor : Nat) (extras : List IONode) (mounts : String → Option String)
        (node : IONode),
      node.get "idVendor" = none ∨ node.get "idProduct" = none →
      processNode minor extras mounts node = .ok [])
    ∧ (∀ (minor : Nat) (forest extras : List IONode)
        (mounts : String → Option String),
      (∀ node ∈ usbDeviceForest forest, nodeOk node = true) →
      (darwin_usbinfo minor forest extras mounts).isOk = true)
    ∧ ∀ (minor : Nat) (forest extras : List IONode)
        (mounts : String → Option String),
      darwin_usbinfo minor forest extras mounts =
        processDevices minor extras mounts
          ((usbDeviceForest forest).filter
            (fun n => n.hasKey "idVendor" && n.hasKey "idProduct")) := by
  refine ⟨processNode_skip, ?_, ?_⟩
  · intro minor forest extras mounts h
    exact processDevices_ok minor extras mounts _ h
  · intro minor forest extras mounts
    exact processDevices_filter minor extras mounts _

/-- Identity-complete device node for the C4 witness. -/
def c4GoodNode : IONode :=
  .mk [("sessionID", .int 1), ("idVendor", .int 2385), ("idProduct", .int 25925)] []

/-- Device node lacking both identity keys for the C4 witness. -/
def c4BadNode : IONode :=
  .mk [("sessionID", .int 2)] []

/-- Witness for the amended C4 at a concrete input: a forest holding a
well-formed node and an identity-less node still yields a successful query. -/
theorem c4_witness :
    (darwin_usbinfo 9 [c4GoodNode, c4BadNode] [] (fun _ => none)).isOk = true :=
  c4_missing_fields_policy.2.1 9 [c4GoodNode, c4BadNode] [] (fun _ => none)
    (by
      intro node hn
      rw [show usbDeviceForest [c4GoodNode, c4BadNode] = [c4GoodNode, c4BadNode]
        from rfl] at hn
      rcases List.mem_cons.mp hn with hn | hn
      · subst hn; rfl
      · rw [List.mem_singleton] at hn
        subst hn; rfl)

mutual

/-- Characterization of _match_node_property: it returns the first node in
pre-order depth-first order that has at least one child and whose property
equals the value; in particular a leaf carrying the property is never
found, since the check only runs inside the loop over children. -/
theorem matchNodeProperty_find (key : String) (value : Option PValue)
    (n : IONode) :
    matchNodeProperty key value n =
      (preorder n).find?
        (fun m => !m.children.isEmpty && decide (m.get key = value)) := by
  cases n with
  | mk props children =>
    rw [matchNodeProperty, preorder]
    cases children with
    | nil =>
      rw [matchLoop, preorderForest]
      simp [List.find?, IONode.children]
    | cons c rest =>
      by_cases h : (IONode.mk props (c :: rest)).get key = value
      · rw [matchLoop, if_pos h]
        have hpred : (fun m => !m.children.isEmpty &&
            decide (m.get key = value)) (IONode.mk props (c :: rest)) = true := by
          simp [IONode.children, h]
        rw [@List.find?_cons_of_pos IONode
          (fun m => !m.children.isEmpty && decide (m.get key = value))
          (IONode.mk props (c :: rest)) (preorderForest (c :: rest)) hpred]
      · have hpred : ¬ ((fun m => !m.children.isEmpty &&
            decide (m.get key = value)) (IONode.mk props (c :: rest)) = true) := by
          simp [IONode.children, h]
        rw [@List.find?_cons_of_neg IONode
          (fun m => !m.children.isEmpty && decide (m.get key = value))
          (IONode.mk props (c :: rest)) (preorderForest (c :: rest)) hpred]
        exact matchLoop_find key value (IONode.mk props (c :: rest)) (c :: rest) h
termination_by sizeOf n

/-- The loop of _match_node_property over a child list, on a node whose own
property does not match, returns the first pre-order hit of the list. -/
theorem matchLoop_find (key : String) (value : Option PValue) (node : IONode)
    (l : List IONode) (h : ¬ (node.get key = value)) :
    matchLoop key value node l =
      (preorderForest l).find?
        (fun m => !m.children.isEmpty && decide (m.get key = value)) := by
  cases l with
  | nil =>
    rw [matchLoop, preorderForest]
    rfl
  | cons c rest =>
    rw [matchLoop, if_neg h, preorderForest, List.find?_append,
      matchNodeProperty_find key value c, matchLoop_find key value node rest h]
    cases (preorder c).find?
        (fun m => !m.children.isEmpty && decide (m.get key = value)) <;>
      simp [Option.or]
termination_by sizeOf l

end

/-- Interface node for the C6 counterexample: a leaf carrying the stable
registry identifier. -/
def c6Leaf : IONode :=
  .mk [("AppleUSBAlternateServiceRegistryID", .int 7)] []

/-- C6 counterexample: a parallel tree whose only node carrying the searched
identifier is a leaf yields no match, although a node in the tree carries
the identifier, refuting the claim that no match is returned only when no
node carries it. -/
theorem c6_counterexample :
    matchNodeProperty "AppleUSBAlternateServiceRegistryID"
      (some (.int 7)) c6Leaf = none
    ∧ c6Leaf.get "AppleUSBAlternateServiceRegistryID" = some (.int 7) := by
  constructor
  · rw [show c6Leaf = IONode.mk
      [("AppleUSBAlternateServiceRegistryID", .int 7)] [] from rfl,
      matchNodeProperty, matchLoop]
  · rfl

/-- C6 amended: the cross-tree correlation finds the first node in pre-order
depth-first order of the parallel tree that has at least one child and
whose AppleUSBAlternateServiceRegistryID equals the identifier (a leaf
carrying it is never matched); and when extra-info is merged, the local
subtree's value takes precedence over the cross-tree value: a local devname
wins outright, and the cross-tree devname is used exactly when the local
subtree yields none. -/
theorem c6_cross_tree_correlation :
    (∀ (key : String) (value : Option PValue) (t : IONode),
      matchNodeProperty key value t =
        (preorder t).find?
          (fun m => !m.children.isEmpty && decide (m.get key = value)))
    ∧ (∀ (minor : Nat) (extras : List IONode)
        (mounts : String → Option String) (devinfo : RawRec) (child : IONode)
        (bIfS bNumS : String) (d : String),
      extraIfInfo child = some d →
      (buildIfRecord minor extras mounts devinfo child bIfS bNumS).devname = d)
    ∧ ∀ (minor : Nat) (extras : List IONode)
        (mounts : String → Option String) (devinfo : RawRec) (child : IONode)
        (bIfS bNumS : String) (w : String),
      11 ≤ minor → extraIfInfo child = none →
      crossExtraInfo extras child = some (some w) →
      (buildIfRecord minor extras mounts devinfo child bIfS bNumS).devname = w := by
  refine ⟨matchNodeProperty_find, ?_, ?_⟩
  · intro minor extras mounts devinfo child bIfS bNumS d h
    simp [buildIfRecord, h]
  · intro minor extras mounts devinfo child bIfS bNumS w hminor hlocal hcross
    simp [buildIfRecord, hminor, hlocal, hcross]

/-- Interface child for the C6 witness, whose subtree exposes a serial
device path. -/
def c6Child : IONode :=
  .mk [("IOObjectClass", .str "IOUSBInterface")]
    [.mk [("IOObjectClass", .str "IOSerialBSDClient"),
          ("IODialinDevice", .str "/dev/ttyUSB0")] []]

/-- Device record the C6 witness starts from. -/
def c6Devinfo : RawRec :=
  { idVendor := "0403", idProduct := "6001", iManufacturer := "",
    iProduct := "", iSerialNumber := "", bNumEndpoints := "1",
    bInterfaceNumber := "", devname := "", mount := none }

/-- Witness for the amended C6 at a concrete input: the local subtree's
devname wins in the merged interface record. -/
theorem c6_witness :
    (buildIfRecord 11 [] (fun _ => none) c6Devinfo c6Child "0" "1").devname =
      "/dev/ttyUSB0" :=
  c6_cross_tree_correlation.2.1 11 [] (fun _ => none) c6Devinfo c6Child "0" "1"
    "/dev/ttyUSB0" rfl

/-- A list is an isPrefixOf-witnessed start of itself followed by anything. -/
theorem isPrefixOf_self_append (l t : List Nat) : l.isPrefixOf (l ++ t) = true := by
  induction l with
  | nil => simp [List.isPrefixOf]
  | cons a as ih => simp [List.isPrefixOf, ih]

/-- A successful isPrefixOf test yields the matching decomposition. -/
theorem isPrefixOf_ex : ∀ (pat l : List Nat), pat.isPrefixOf l = true →
    ∃ t, l = pat ++ t := by
  intro pat
  induction pat with
  | nil => intro l _; exact ⟨l, rfl⟩
  | cons a as ih =>
    intro l h
    cases l with
    | nil => simp [List.isPrefixOf] at h
    | cons b bs =>
      rw [List.isPrefixOf, Bool.and_eq_true] at h
      have hab : a = b := by simpa using h.1
      obtain ⟨t, ht⟩ := ih bs h.2
      exact ⟨t, by rw [hab, ht]; rfl⟩

/-- Soundness of splitFirst: a successful split decomposes the input around
the pattern. -/
theorem splitFirst_sound (pat : List Nat) : ∀ (l p q : List Nat),
    splitFirst pat l = some (p, q) → l = p ++ pat ++ q := by
  intro l
  induction l with
  | nil =>
    intro p q h
    rw [splitFirst] at h
    split at h
    · rename_i hpre
      have hnil : pat = [] := by
        obtain ⟨t, ht⟩ := isPrefixOf_ex pat [] hpre
        cases pat with
        | nil => rfl
        | cons x xs => exact List.noConfusion ht
      injection h with h2
      injection h2 with h3 h4
      subst h3
      subst h4
      rw [hnil]
      rfl
    · exact absurd h (by simp)
  | cons b rest ih =>
    intro p q h
    rw [splitFirst] at h
    split at h
    · rename_i hpre
      injection h with h2
      injection h2 with h3 h4
      subst h3
      subst h4
      obtain ⟨t, ht⟩ := isPrefixOf_ex pat (b :: rest) hpre
      rw [List.nil_append, ht, List.drop_left]
    · cases hsf : splitFirst pat rest with
      | none => rw [hsf] at h; simp at h
      | some pq =>
        rw [hsf] at h
        obtain ⟨p0, q0⟩ := pq
        simp only [Option.map_some'] at h
        injection h with h2
        injection h2 with h3 h4
        subst h3
        subst h4
        have hr := ih p0 q0 hsf
        rw [List.cons_append, List.cons_append, ← hr]

/-- Completeness of splitFirst at the first occurrence: when the head of
the pattern occurs nowhere in the part before the pattern, the split finds
exactly that decomposition. -/
theorem splitFirst_append (a : Nat) (pt : List Nat) :
    ∀ (p q : List Nat), (∀ x ∈ p, x ≠ a) →
    splitFirst (a :: pt) (p ++ ((a :: pt) ++ q)) = some (p, q) := by
  intro p
  induction p with
  | nil =>
    intro q hp
    have hpre : (a :: pt).isPrefixOf ((a :: pt) ++ q) = true :=
      isPrefixOf_self_append _ _
    rw [List.nil_append, List.cons_append, splitFirst, ← List.cons_append,
      if_pos hpre, List.drop_left]
  | cons c p0 ih =>
    intro q hp
    have hca : c ≠ a := hp c (List.mem_cons_self _ _)
    rw [List.cons_append, splitFirst]
    have hpre : ¬ ((a :: pt).isPrefixOf (c :: (p0 ++ ((a :: pt) ++ q))) = true) := by
      simp [List.isPrefixOf, Ne.symm hca]
    rw [if_neg hpre, ih q (fun x hx => hp x (List.mem_cons_of_mem c hx))]
    rfl

/-- Behavior of takeWhile and dropWhile on a satisfying block followed by a
failing element. -/
theorem takeWhile_append_not (p : Nat → Bool) : ∀ (ws : List Nat) (b : Nat)
    (t : List Nat), (∀ x ∈ ws, p x = true) → p b = false →
    (ws ++ b :: t).takeWhile p = ws ∧ (ws ++ b :: t).dropWhile p = b :: t := by
  intro ws
  induction ws with
  | nil =>
    intro b t _ hb
    constructor
    · simp [List.takeWhile_cons, hb]
    · simp [List.dropWhile_cons, hb]
  | cons w ws0 ih =>
    intro b t h hb
    have hw : p w = true := h w (List.mem_cons_self _ _)
    obtain ⟨h1, h2⟩ := ih b t (fun x hx => h x (List.mem_cons_of_mem w hx)) hb
    constructor
    · rw [List.cons_append, List.takeWhile_cons, hw]
      simp [h1]
    · rw [List.cons_append, List.dropWhile_cons, hw]
      simp [h2]

/-- Inversion of a successful sanitize-pattern match: the groups are the
leading whitespace, the payload up to the first closing tag, and the line
remainder, and the line decomposes accordingly. -/
theorem matchLine_inv (l ws mid post : List Nat)
    (h : matchLine l = some (ws, mid, post)) :
    ws = l.takeWhile isWsB
    ∧ splitFirst strCloseTag ((l.dropWhile isWsB).drop strOpenTag.length) =
        some (mid, post)
    ∧ l = ws ++ (strOpenTag ++ (mid ++ (strCloseTag ++ post))) := by
  rw [matchLine] at h
  split at h
  case isTrue hpre =>
    split at h
    case h_1 mid0 post0 hsf =>
      injection h with h2
      injection h2 with h3 h4
      injection h4 with h5 h6
      subst h3
      subst h5
      subst h6
      refine ⟨rfl, hsf, ?_⟩
      obtain ⟨t, ht⟩ := isPrefixOf_ex strOpenTag (l.dropWhile isWsB) hpre
      have hts : t = (l.dropWhile isWsB).drop strOpenTag.length := by
        rw [ht, List.drop_left]
      have hdecomp := splitFirst_sound strCloseTag _ _ _ hsf
      rw [← hts] at hdecomp
      calc l = l.takeWhile isWsB ++ l.dropWhile isWsB :=
            (List.takeWhile_append_dropWhile isWsB l).symm
        _ = l.takeWhile isWsB ++ (strOpenTag ++ t) := by rw [← ht]
        _ = l.takeWhile isWsB ++ (strOpenTag ++ (mid0 ++ strCloseTag ++ post0)) := by
            rw [← hdecomp]
        _ = l.takeWhile isWsB ++ (strOpenTag ++ (mid0 ++ (strCloseTag ++ post0))) := by
            rw [List.append_assoc]
    case h_2 => exact absurd h (by simp)
  case isFalse => exact absurd h (by simp)

/-- Construction of a sanitize-pattern match from a decomposed line whose
payload holds no opening angle bracket. -/
theorem matchLine_construct (ws mid post : List Nat)
    (hws : ∀ x ∈ ws, isWsB x = true)
    (hmid : ∀ x ∈ mid, x ≠ 60) :
    matchLine (ws ++ (strOpenTag ++ (mid ++ (strCloseTag ++ post)))) =
      some (ws, mid, post) := by
  have hopen : strOpenTag = 60 :: [115, 116, 114, 105, 110, 103, 62] := rfl
  have hclose : strCloseTag = 60 :: [47, 115, 116, 114, 105, 110, 103, 62] := rfl
  have h60 : isWsB 60 = false := rfl
  have hshape : ws ++ (strOpenTag ++ (mid ++ (strCloseTag ++ post))) =
      ws ++ 60 :: ([115, 116, 114, 105, 110, 103, 62] ++
        (mid ++ (strCloseTag ++ post))) := by
    rw [hopen, List.cons_append]
  obtain ⟨htw, hdw⟩ := takeWhile_append_not isWsB ws 60
    ([115, 116, 114, 105, 110, 103, 62] ++ (mid ++ (strCloseTag ++ post)))
    hws h60
  have htw2 : (ws ++ (strOpenTag ++ (mid ++ (strCloseTag ++ post)))).takeWhile isWsB
      = ws := by rw [hshape]; exact htw
  have hdw2 : (ws ++ (strOpenTag ++ (mid ++ (strCloseTag ++ post)))).dropWhile isWsB
      = strOpenTag ++ (mid ++ (strCloseTag ++ post)) := by
    rw [hshape, hdw]
    rfl
  have hpre : strOpenTag.isPrefixOf
      (strOpenTag ++ (mid ++ (strCloseTag ++ post))) = true :=
    isPrefixOf_self_append _ _
  have hsf : splitFirst strCloseTag
      ((strOpenTag ++ (mid ++ (strCloseTag ++ post))).drop strOpenTag.length) =
      some (mid, post) := by
    rw [List.drop_left, hclose]
    exact splitFirst_append 60 [47, 115, 116, 114, 105, 110, 103, 62] mid post hmid
  rw [matchLine]
  rw [htw2, hdw2, if_pos hpre, hsf]

/-- Range of an uppercase hexadecimal digit byte. -/
theorem hexDigitUpper_range : ∀ m, m < 16 →
    48 ≤ hexDigitUpper m ∧ hexDigitUpper m ≤ 70 ∧ hexDigitUpper m ≠ 60 := by
  decide

/-- Range of the bytes of one hex-encoded byte. -/
theorem hexByte_range (b : Nat) : ∀ x ∈ hexByte b,
    48 ≤ x ∧ x ≤ 70 ∧ x ≠ 60 := by
  intro x hx
  rw [hexByte] at hx
  rcases List.mem_cons.mp hx with hx | hx
  · subst hx
    exact hexDigitUpper_range _ (Nat.mod_lt _ (by omega))
  · rw [List.mem_singleton] at hx
    subst hx
    exact hexDigitUpper_range _ (Nat.mod_lt _ (by omega))

/-- Range of the bytes of a hex-encoded payload. -/
theorem flatMap_hexByte_range (mid : List Nat) : ∀ x ∈ mid.flatMap hexByte,
    48 ≤ x ∧ x ≤ 70 ∧ x ≠ 60 := by
  intro x hx
  obtain ⟨b, _, hxb⟩ := List.mem_flatMap.mp hx
  exact hexByte_range b x hxb

/-- Idempotence of the per-line sanitization: a line the sanitizer patched
still matches the pattern, but its payload is hexadecimal digits with no
control byte, so a second pass leaves it unchanged. -/
theorem sanitizeLine_idem (l : List Nat) :
    sanitizeLine (sanitizeLine l) = sanitizeLine l := by
  cases hm : matchLine l with
  | none =>
    have h1 : sanitizeLine l = l := by rw [sanitizeLine, hm]
    rw [h1]
    exact h1
  | some t =>
    obtain ⟨ws, mid, post⟩ := t
    by_cases hc : (mid.any (fun b => b < 32)) = true
    · have h1 : sanitizeLine l =
          ws ++ (strOpenTag ++ (mid.flatMap hexByte ++ (strCloseTag ++ post))) := by
        rw [sanitizeLine, hm]
        simp only [hc, if_true]
        simp [List.append_assoc]
      obtain ⟨hws0, _, _⟩ := matchLine_inv l ws mid post hm
      have hws : ∀ x ∈ ws, isWsB x = true := by
        intro x hx
        rw [hws0] at hx
        exact List.mem_takeWhile_imp hx
      have hmid60 : ∀ x ∈ mid.flatMap hexByte, x ≠ 60 :=
        fun x hx => (flatMap_hexByte_range mid x hx).2.2
      have hm2 : matchLine (sanitizeLine l) =
          some (ws, mid.flatMap hexByte, post) := by
        rw [h1]
        exact matchLine_construct ws (mid.flatMap hexByte) post hws hmid60
      have hc2 : ¬ ((mid.flatMap hexByte).any (fun b => b < 32) = true) := by
        rw [List.any_eq_true]
        rintro ⟨x, hx, hlt⟩
        have := (flatMap_hexByte_range mid x hx).1
        simp at hlt
        omega
      rw [sanitizeLine, hm2]
      simp only [if_neg hc2]
    · have h1 : sanitizeLine l = l := by
        rw [sanitizeLine, hm]
        simp only [if_neg hc]
      rw [h1]
      exact h1

/-- The sanitizer never introduces a newline byte into a line. -/
theorem sanitizeLine_no_nl (l : List Nat) (h : (10 : Nat) ∉ l) :
    (10 : Nat) ∉ sanitizeLine l := by
  cases hm : matchLine l with
  | none => rw [sanitizeLine, hm]; exact h
  | some t =>
    obtain ⟨ws, mid, post⟩ := t
    obtain ⟨_, _, hdecomp⟩ := matchLine_inv l ws mid post hm
    by_cases hc : (mid.any (fun b => b < 32)) = true
    · rw [sanitizeLine, hm]
      simp only [hc, if_true]
      intro hmem
      simp only [List.mem_append] at hmem
      rcases hmem with (((hx | hx) | hx) | hx) | hx
      · exact h (by rw [hdecomp]; simp [hx])
      · exact absurd hx (by decide)
      · have := (flatMap_hexByte_range mid 10 hx).1
        omega
      · exact absurd hx (by decide)
      · exact h (by rw [hdecomp]; simp [hx])
    · rw [sanitizeLine, hm]
      simp only [if_neg hc]
      exact h

/-- Lines produced by splitting on the newline byte hold no newline byte. -/
theorem splitOnNL_no_nl : ∀ (d : List Nat), ∀ l ∈ splitOnNL d, (10 : Nat) ∉ l := by
  intro d
  induction d with
  | nil =>
    intro l hl
    rw [splitOnNL, List.mem_singleton] at hl
    subst hl
    simp
  | cons b rest ih =>
    intro l hl
    rw [splitOnNL] at hl
    split at hl
    · rcases List.mem_cons.mp hl with hl | hl
      · subst hl; simp
      · exact ih l hl
    · rename_i hb
      split at hl
      · rename_i hnil
        rw [List.mem_singleton] at hl
        subst hl
        simp
        omega
      · rename_i l0 ls hcons
        rcases List.mem_cons.mp hl with hl | hl
        · subst hl
          intro hmem
          rcases List.mem_cons.mp hmem with hmem | hmem
          · exact hb hmem.symm
          · exact ih l0 (by rw [hcons]; exact List.mem_cons_self _ _) hmem
        · exact ih l (by rw [hcons]; exact List.mem_cons_of_mem _ hl)

/-- Splitting on newlines never yields an empty list of lines. -/
theorem splitOnNL_ne_nil : ∀ (d : List Nat), splitOnNL d ≠ [] := by
  intro d
  induction d with
  | nil => rw [splitOnNL]; simp
  | cons b rest ih =>
    rw [splitOnNL]
    split
    · simp
    · split
      · simp
      · simp

/-- A newline-free byte list splits into itself as a single line. -/
theorem splitOnNL_single (l : List Nat) (h : (10 : Nat) ∉ l) :
    splitOnNL l = [l] := by
  induction l with
  | nil => rw [splitOnNL]
  | cons b rest ih =>
    rw [splitOnNL]
    have hb : ¬ (b = 10) := fun hx => h (by rw [hx]; exact List.mem_cons_self _ _)
    rw [if_neg hb]
    have hrest := ih (fun hx => h (List.mem_cons_of_mem b hx))
    rw [hrest]

/-- Splitting a newline-free line joined ahead of further content peels off
exactly that line. -/
theorem splitOnNL_append (l : List Nat) (rest : List Nat)
    (h : (10 : Nat) ∉ l) :
    splitOnNL (l ++ 10 :: rest) = l :: splitOnNL rest := by
  induction l with
  | nil => rw [List.nil_append, splitOnNL, if_pos rfl]
  | cons b l0 ih =>
    have hb : ¬ (b = 10) := fun hx => h (by rw [hx]; exact List.mem_cons_self _ _)
    rw [List.cons_append, splitOnNL, if_neg hb,
      ih (fun hx => h (List.mem_cons_of_mem b hx))]

/-- Round trip of join and split over newline-free lines. -/
theorem splitOnNL_joinNL : ∀ (ls : List (List Nat)), ls ≠ [] →
    (∀ l ∈ ls, (10 : Nat) ∉ l) → splitOnNL (joinNL ls) = ls := by
  intro ls
  induction ls with
  | nil => intro h _; exact absurd rfl h
  | cons l ls0 ih =>
    intro _ hnl
    cases ls0 with
    | nil =>
      rw [joinNL]
      exact splitOnNL_single l (hnl l (List.mem_cons_self _ _))
    | cons l2 ls1 =>
      have hih := ih (fun hx => List.noConfusion hx)
        (fun x hx => hnl x (List.mem_cons_of_mem l hx))
      rw [joinNL, splitOnNL_append l _ (hnl l (List.mem_cons_self _ _)), hih]
      exact fun hx => List.noConfusion hx

/-- C8: the registry sanitizer is idempotent; applying _sanitize_xml to its
own output returns that output unchanged, for every input byte document. -/
theorem c8_sanitize_idempotent (d : List Nat) :
    sanitize_xml (sanitize_xml d) = sanitize_xml d := by
  rw [sanitize_xml, sanitize_xml]
  have hnl : ∀ l ∈ (splitOnNL d).map sanitizeLine, (10 : Nat) ∉ l := by
    intro l hl
    obtain ⟨l0, hl0, hmap⟩ := List.mem_map.mp hl
    subst hmap
    exact sanitizeLine_no_nl l0 (splitOnNL_no_nl d l0 hl0)
  have hne : (splitOnNL d).map sanitizeLine ≠ [] := by
    intro hx
    exact splitOnNL_ne_nil d (List.map_eq_nil_iff.mp hx)
  rw [splitOnNL_joinNL ((splitOnNL d).map sanitizeLine) hne hnl]
  have hcomp : sanitizeLine ∘ sanitizeLine = sanitizeLine := by
    funext x
    exact sanitizeLine_idem x
  rw [List.map_map, hcomp]

/-- C9 counterexample: a raw record whose bInterfaceNumber is the digit
string 10 is normalized to interface 16, because cast_int parses digit
strings with int(value, 16); the claimed decimal reading 10 is refuted. -/
theorem c9_counterexample :
    (usbinfo_dict_to_endpoint
      [("idVendor", "05ac"), ("idProduct", "8007"),
       ("bInterfaceNumber", "10")]).map (fun e => e.interface) =
      .ok (some 16)
    ∧ (16 : Int) ≠ (10 : Int) := by
  constructor
  · rfl
  · decide

/-- Value of hexVal on a decimal digit character. -/
theorem hexVal_digit (c : Char) (h1 : 48 ≤ c.toNat) (h2 : c.toNat ≤ 57) :
    hexVal c = some (c.toNat - 48) := by
  rw [hexVal, if_pos ⟨h1, h2⟩]

/-- The base-16 accumulator loop evaluates a decimal-digit character list to
the left fold of its digit values. -/
theorem parseHexDigitsAux_digits : ∀ (l : List Char) (acc : Nat),
    (∀ c ∈ l, 48 ≤ c.toNat ∧ c.toNat ≤ 57) →
    parseHexDigitsAux l acc =
      some (l.foldl (fun a c => 16 * a + (c.toNat - 48)) acc) := by
  intro l
  induction l with
  | nil => intro acc _; rfl
  | cons c l0 ih =>
    intro acc h
    have hc := h c (List.mem_cons_self _ _)
    rw [parseHexDigitsAux, hexVal_digit c hc.1 hc.2, List.foldl_cons]
    exact ih _ (fun x hx => h x (List.mem_cons_of_mem c hx))

/-- The big-endian base-16 fold equals the little-endian digit evaluation of
the reversed digit list. -/
theorem foldl_hex_ofDigits : ∀ (ds : List Nat) (acc : Nat),
    ds.foldl (fun a d => 16 * a + d) acc =
      acc * 16 ^ ds.length + Nat.ofDigits 16 ds.reverse := by
  intro ds
  induction ds with
  | nil => intro acc; simp [Nat.ofDigits]
  | cons d ds0 ih =>
    intro acc
    rw [List.foldl_cons, ih, List.reverse_cons, Nat.ofDigits_append]
    simp only [Nat.ofDigits, List.length_cons, List.length_reverse, Nat.cast_id]
    ring

/-- Characterization of cast_int on a digit-string field: the value is read
as a base-16 numeral over its decimal digits. -/
theorem cast_int_digits (ep : List (String × String)) (key s : String)
    (hs : dget ep key = some s) (hd : pyIsDigit s = true) :
    cast_int ep key =
      some ((Nat.ofDigits 16
        ((s.data.map (fun c => c.toNat - 48)).reverse) : Nat) : Int) := by
  rw [pyIsDigit, Bool.and_eq_true] at hd
  have hne : ¬ (s.data = []) := by
    intro hx
    rw [hx] at hd
    simp at hd
  have hdig : ∀ c ∈ s.data, 48 ≤ c.toNat ∧ c.toNat ≤ 57 := by
    intro c hc
    have := List.all_eq_true.mp hd.2 c hc
    simp at this
    omega
  rw [cast_int, hs]
  simp only [Option.getD_some]
  rw [if_pos (by rw [pyIsDigit, Bool.and_eq_true]; exact hd)]
  rw [parseHexDigits, if_neg hne, parseHexDigitsAux_digits s.data 0 hdig]
  rw [show s.data.foldl (fun a c => 16 * a + (c.toNat - 48)) 0 =
      (s.data.map (fun c => c.toNat - 48)).foldl (fun a d => 16 * a + d) 0 from
    (List.foldl_map _ _ _ _).symm]
  rw [foldl_hex_ofDigits]
  simp

/-- Behavior of cast_int on an empty or absent field: the explicit no-value
marker, not zero. -/
theorem cast_int_empty (ep : List (String × String)) (key : String)
    (h : (dget ep key).getD "" = "") : cast_int ep key = none := by
  rw [cast_int, h]
  rfl

/-- C9 amended: normalization parses idVendor and idProduct with int(x, 16);
an empty or absent bInterfaceNumber or bNumEndpoints becomes None rather
than zero; and a decimal-digit value of those fields is parsed as a BASE-16
numeral (int(value, 16)), not as its decimal value. -/
theorem c9_normalization (ep : List (String × String)) (pS vS : String)
    (p v : Int) (hp : dget ep "idProduct" = some pS)
    (hpv : pyIntBase16 pS = .ok p)
    (hv : dget ep "idVendor" = some vS) (hvv : pyIntBase16 vS = .ok v) :
    usbinfo_dict_to_endpoint ep = .ok {
      devname := dget ep "devname", id_product := p, id_vendor := v,
      interface := cast_int ep "bInterfaceNumber", mount := dget ep "mount",
      num_endpoints := cast_int ep "bNumEndpoints",
      product := dget ep "iProduct", serial_number := dget ep "iSerialNumber",
      vendor := dget ep "iManufacturer" }
    ∧ ((dget ep "bInterfaceNumber").getD "" = "" →
        cast_int ep "bInterfaceNumber" = none)
    ∧ (∀ s, dget ep "bInterfaceNumber" = some s → pyIsDigit s = true →
        cast_int ep "bInterfaceNumber" =
          some ((Nat.ofDigits 16
            ((s.data.map (fun c => c.toNat - 48)).reverse) : Nat) : Int))
    ∧ ((dget ep "bNumEndpoints").getD "" = "" →
        cast_int ep "bNumEndpoints" = none)
    ∧ ∀ s, dget ep "bNumEndpoints" = some s → pyIsDigit s = true →
        cast_int ep "bNumEndpoints" =
          some ((Nat.ofDigits 16
            ((s.data.map (fun c => c.toNat - 48)).reverse) : Nat) : Int) := by
  refine ⟨?_, cast_int_empty ep _, fun s hs hd => cast_int_digits ep _ s hs hd,
    cast_int_empty ep _, fun s hs hd => cast_int_digits ep _ s hs hd⟩
  simp only [usbinfo_dict_to_endpoint, hp, hpv, hv, hvv]

/-- Raw record for the C9 witness. -/
def c9wRec : List (String × String) :=
  [("idVendor", "05ac"), ("idProduct", "8007"), ("bInterfaceNumber", "0")]

/-- Witness for the amended C9 at a concrete input: the record decodes, the
IDs parse in base 16, the digit field parses as a base-16 numeral and the
absent bNumEndpoints becomes None. -/
theorem c9_witness :
    usbinfo_dict_to_endpoint c9wRec = .ok {
      devname := dget c9wRec "devname", id_product := 32775, id_vendor := 1452,
      interface := cast_int c9wRec "bInterfaceNumber",
      mount := dget c9wRec "mount",
      num_endpoints := cast_int c9wRec "bNumEndpoints",
      product := dget c9wRec "iProduct",
      serial_number := dget c9wRec "iSerialNumber",
      vendor := dget c9wRec "iManufacturer" }
    ∧ cast_int c9wRec "bInterfaceNumber" =
        some ((Nat.ofDigits 16 [0] : Nat) : Int)
    ∧ cast_int c9wRec "bNumEndpoints" = none := by
  have h := c9_normalization c9wRec "8007" "05ac" 32775 1452 rfl rfl rfl rfl
  refine ⟨h.1, ?_, h.2.2.2.1 rfl⟩
  have h2 := h.2.2.1 "0" rfl rfl
  simpa using h2
